import Mathlib

/-!
Shallow embedding of the `yogurt` command-tree dispatcher
(`src/dispatcher/mod.rs`, `src/dispatcher/builder.rs`).

Rust closures (`Box<dyn Fn...>`) with captured mutable environment are
modelled as pure functions threading an explicit world state `σ`; the
`&mut ExecContext<C>` and `&mut usize` parameters become returned values.
Machine integers (`usize`) are modelled as `Nat`: the cursor only ever
increments by one past positions that hold a token, so no overflow is
reachable.
-/

/-- Tokens produced by the tokenizer (`crate::parsers::tokenize::Token`):
positional (`Simple`), key-value (`Named`), and the invocation boundary
marker (`End`). -/
inductive Token : Type where
  | Simple : String → Token
  | Named : String → String → Token
  | End : Token
deriving DecidableEq

/-- `InvalidCommandReason` variants used by the dispatcher core. -/
inductive InvalidCommandReason : Type where
  | UnknownCommand : InvalidCommandReason
deriving DecidableEq

/-- The crate error type (`crate::Error`), restricted to the variants the
dispatcher core produces; `custom` stands for opaque action failures. -/
inductive YError : Type where
  | InvalidCommand : InvalidCommandReason → YError
  | SyntaxError : YError
  | IncompleteBuilder : YError
  | custom : String → YError
deriving DecidableEq

/-- `ExecState` from `src/dispatcher/mod.rs`: `Working` means the subtree
was abandoned with no terminal reached; `Done` carries the final result. -/
inductive ExecState : Type where
  | Working : ExecState
  | Done : Except YError Unit → ExecState

/-- Modelled from the spec: `Argument` (the `crate::argument` module is not
under `src/`): a named, possibly-required slot backed by a pluggable
validator capability `validate(token) -> matched/not-matched`. -/
structure Argument : Type where
  name : String
  required : Bool
  validator : String → Bool

/-- Modelled from the spec: `Argument::matches` reports whether the raw
string is an acceptable value for this slot, via the validator capability
(pure, total, no side effects). -/
def Argument.matches (a : Argument) (raw : String) : Bool :=
  a.validator raw

/-- `NodeType` from `src/dispatcher/mod.rs`. -/
inductive NodeType : Type where
  | Argument : Argument → NodeType
  | Literal : String → NodeType

/-- `ExecContext<C>`: caller context plus accumulated bindings of
argument name to raw matched value (a map, insert overwrites). -/
structure ExecContext (C : Type) : Type where
  user : C
  arguments : String → Option String

/-- `ExecContext::new`. -/
def ExecContext.new {C : Type} (c : C) : ExecContext C :=
  ⟨c, fun _ => none⟩

/-- `ExecContext::insert_argument`: record a binding, overwriting any
previous binding for the same name. -/
def ExecContext.insertArgument {C : Type} (ctx : ExecContext C)
    (name value : String) : ExecContext C :=
  ⟨ctx.user, fun x => if x = name then some value else ctx.arguments x⟩

/-- The type of a node's action: `Box<dyn Fn(&mut ExecContext<C>) -> Result<()>>`,
with closure side effects threaded through the world `σ`. -/
def Act (C σ : Type) : Type :=
  ExecContext C → σ → Except YError Unit × ExecContext C × σ

/-- `Command<C>` from `src/dispatcher/mod.rs`: children, node kind, and an
optional action. -/
inductive Command (C σ : Type) : Type where
  | mk (children : List (Command C σ)) (node : NodeType)
       (exec : Option (Act C σ)) : Command C σ

/-- Field accessor for `Command::children`. -/
def Command.children {C σ : Type} : Command C σ → List (Command C σ)
  | .mk cs _ _ => cs

/-- Field accessor for `Command::node`. -/
def Command.node {C σ : Type} : Command C σ → NodeType
  | .mk _ n _ => n

/-- Field accessor for `Command::exec`. -/
def Command.action {C σ : Type} : Command C σ → Option (Act C σ)
  | .mk _ _ e => e

/-- `Command::is_literal`. -/
def Command.isLiteral {C σ : Type} (c : Command C σ) : Bool :=
  match c.node with
  | .Literal _ => true
  | _ => false

/-- `Command::is_argument`. -/
def Command.isArgument {C σ : Type} (c : Command C σ) : Bool :=
  match c.node with
  | .Argument _ => true
  | _ => false

/-- `Command::process` (src/dispatcher/mod.rs lines 78-119): one matching
step for this node at the cursor. Returns the Rust `bool` together with
the final values of the `&mut` parameters (cursor offset and context).
The named-argument map is only read, never written, so it is passed by
value. -/
def Command.process {C σ : Type} (cmd : Command C σ) (offset : Nat)
    (tokens : List String) (named : String → Option String)
    (ctx : ExecContext C) : Bool × Nat × ExecContext C :=
  match cmd.node with
  | .Literal name =>
    match tokens[offset]? with
    | some token =>
      if name = token then (true, offset + 1, ctx)
      else (false, offset, ctx)
    | none => (false, offset, ctx)
  | .Argument argument =>
    match named argument.name with
    | some v =>
      if argument.matches v then
        (true, offset, ctx.insertArgument argument.name v)
      else (false, offset, ctx)
    | none =>
      match tokens[offset]? with
      | some token =>
        if argument.matches token then
          (true, offset + 1, ctx.insertArgument argument.name token)
        else (false, offset, ctx)
      | none => (false, offset, ctx)

mutual

/-- `Command::execute` (src/dispatcher/mod.rs lines 51-76), translated
verbatim: the guard on line 58 is `offset <= tokens.len()` exactly as in
the source. Returns the `ExecState` together with the final values of the
`&mut` context and the world. -/
def Command.execute {C σ : Type} (cmd : Command C σ) (offset : Nat)
    (tokens : List String) (named : String → Option String)
    (ctx : ExecContext C) (w : σ) : ExecState × ExecContext C × σ :=
  if offset ≤ tokens.length then
    match cmd.action with
    | some f =>
      let (r, ctx', w') := f ctx w
      (.Done r, ctx', w')
    | none => (.Done (.error (.InvalidCommand .UnknownCommand)), ctx, w)
  else
    match cmd with
    | .mk children _ _ =>
      Command.executeChildren children offset tokens named ctx w

/-- The child loop of `Command::execute` (src/dispatcher/mod.rs lines
66-75): try each child in stored order; a successful `process` recurses,
`Done` is propagated immediately, `Working` (or a failed `process`)
continues with the next sibling at the threaded-through cursor and
context. -/
def Command.executeChildren {C σ : Type} (cs : List (Command C σ))
    (offset : Nat) (tokens : List String) (named : String → Option String)
    (ctx : ExecContext C) (w : σ) : ExecState × ExecContext C × σ :=
  match cs with
  | [] => (.Working, ctx, w)
  | c :: rest =>
    match c.process offset tokens named ctx with
    | (ok, offset', ctx') =>
      if ok then
        match c.execute offset' tokens named ctx' w with
        | (.Working, ctx₂, w₂) =>
          Command.executeChildren rest offset' tokens named ctx₂ w₂
        | (.Done r, ctx₂, w₂) => (.Done r, ctx₂, w₂)
      else
        Command.executeChildren rest offset' tokens named ctx' w

end

/-- `CommandBuilder<C>` from `src/dispatcher/builder.rs`. -/
structure CommandBuilder (C σ : Type) : Type where
  children : List (Command C σ)
  node : NodeType
  action : Option (Act C σ)

/-- `CommandBuilder::build` (src/dispatcher/builder.rs lines 41-50):
partition the declared children into literals and arguments (a stable
partition via `Vec::partition`), literals first, then wrap into a
`Command`. -/
def CommandBuilder.build {C σ : Type} (b : CommandBuilder C σ) :
    Command C σ :=
  match b.children.partition Command.isLiteral with
  | (literals, arguments) => Command.mk (literals ++ arguments) b.node b.action

/-- `Dispatcher<C>`: the immutable tree root, the command prefix string
(field `prefix` in the source; renamed because `prefix` is reserved in
Lean), and the per-invocation context factory (a closure, modelled with
the threaded world `σ`). -/
structure Dispatcher (C σ : Type) : Type where
  root : Command C σ
  pfx : String
  contextFactory : σ → C × σ

/-- `unwrap_tokens` (src/dispatcher/mod.rs lines 175-183): keep the
payloads of `Simple` tokens, dropping everything else. -/
def unwrapTokens (tokens : List Token) : List String :=
  match tokens with
  | [] => []
  | Token.Simple content :: rest => content :: unwrapTokens rest
  | _ :: rest => unwrapTokens rest

/-- Whether a token is a `Named` token (the partition predicate in
`execute_command`). -/
def Token.isNamed : Token → Bool
  | .Named _ _ => true
  | _ => false

/-- `map_named_arguments` (src/dispatcher/mod.rs lines 185-193): fold the
`Named` tokens into a map, later inserts overwriting earlier ones
(`HashMap::insert` semantics). -/
def mapNamedArguments (tokens : List Token) : String → Option String :=
  match tokens with
  | [] => fun _ => none
  | Token.Named key value :: rest =>
    fun x =>
      if (mapNamedArguments rest) x = none ∧ x = key then some value
      else (mapNamedArguments rest) x
  | _ :: rest => mapNamedArguments rest

/-- `Dispatcher::execute_command` (src/dispatcher/mod.rs lines 155-172):
partition one invocation's tokens into named and positional, build the
named map, run the matcher from the root with cursor 0 on a fresh
context, and turn a top-level `Working` into `UnknownCommand`. The
`println!` debug output is dropped. -/
def Dispatcher.executeCommand {C σ : Type} (d : Dispatcher C σ)
    (tokens : List Token) (w : σ) : Except YError Unit × σ :=
  match tokens.partition Token.isNamed with
  | (namedArguments, positional) =>
    let ts := unwrapTokens positional
    let namedMap := mapNamedArguments namedArguments
    match d.contextFactory w with
    | (c, w₁) =>
      match d.root.execute 0 ts namedMap (ExecContext.new c) w₁ with
      | (.Working, _, w₂) =>
        (.error (.InvalidCommand .UnknownCommand), w₂)
      | (.Done res, _, w₂) => (res, w₂)

/-- The invocation loop of `Dispatcher::run_command` (src/dispatcher/mod.rs
lines 143-152): accumulate tokens until a boundary (`End`); flush each
non-empty accumulated invocation through `execute_command`, propagating
the first error (`?`); return `Ok(())` when the token list is exhausted. -/
def Dispatcher.runTokens {C σ : Type} (d : Dispatcher C σ) :
    List Token → List Token → σ → Except YError Unit × σ
  | [], _, w => (.ok (), w)
  | t :: ts, acc, w =>
    if t ≠ Token.End then d.runTokens ts (acc ++ [t]) w
    else if acc ≠ [] then
      match d.executeCommand acc w with
      | (.ok _, w') => d.runTokens ts [] w'
      | (.error e, w') => (.error e, w')
    else d.runTokens ts acc w

/-- Modelled from the spec: one word of the tokenizer's output (§4.1): a
`key:value`-shaped word becomes a named token, any other word a
positional token. The word arrives in reversed accumulation order. -/
def flushWord (word : List Char) : List Token :=
  match word with
  | [] => []
  | _ =>
    [if word.contains ':' then
      Token.Named (String.mk (word.reverse.takeWhile (· ≠ ':')))
        (String.mk ((word.reverse.dropWhile (· ≠ ':')).drop 1))
      else Token.Simple (String.mk word.reverse)]

/-- Modelled from the spec: the tokenizer (`crate::parsers::tokenize` is
not under `src/`). §4.1: whitespace-delimited words become positional
tokens, `key:value`-shaped words become named tokens, and the
invocation-separating construct (`;` in the §8 example) becomes a
boundary token. Implemented over the character list with a reversed
word accumulator; a `;` separates words on both sides. -/
def tokenizeChars : List Char → List Char → List Token
  | [], word => flushWord word
  | c :: cs, word =>
    if c = ';' then
      flushWord word ++ Token.End :: tokenizeChars cs []
    else if c.isWhitespace then
      flushWord word ++ tokenizeChars cs []
    else
      tokenizeChars cs (c :: word)

/-- Modelled from the spec: `tokenize(input) -> sequence of Token`
(§4.1), over a whole string. -/
def tokenize (s : String) : List Token :=
  tokenizeChars s.data []

/-- `Dispatcher::run_command` (src/dispatcher/mod.rs lines 135-153):
strip leading whitespace (`multispace0`) and the configured prefix
(`tag`, failing with a syntax error when absent), tokenize the remainder,
append a synthetic `End`, and run the invocation loop. -/
def Dispatcher.runCommand {C σ : Type} (d : Dispatcher C σ) (command : String)
    (w : σ) : Except YError Unit × σ :=
  let cs := command.data.dropWhile Char.isWhitespace
  if d.pfx.data.isPrefixOf cs then
    let toks := tokenizeChars (cs.drop d.pfx.data.length) []
    d.runTokens (toks ++ [Token.End]) [] w
  else (.error .SyntaxError, w)

/-- A validator accepting every raw string (used in concrete instances). -/
def acceptAll : String → Bool := fun _ => true

/-- A concrete action that appends a message to the world log
(instantiating `σ := List String` to observe invocations). -/
def logAction (msg : String) : Act Unit (List String) :=
  fun ctx w => (.ok (), ctx, w ++ [msg])

/-- The empty named-argument map. -/
def noNamed : String → Option String := fun _ => none

/-- The argument leaf of the worked example (`examples/simple.rs`):
argument "number" bearing the action. -/
def pingLeaf : Command Unit (List String) :=
  .mk [] (.Argument ⟨"number", true, acceptAll⟩) (some (logAction "ping-action"))

/-- The literal "ping" node of the worked example. -/
def pingCmd : Command Unit (List String) :=
  .mk [pingLeaf] (.Literal "ping") none

/-- The root of the worked example: the builder's root literal `""` with
the single child `ping`, no root action. -/
def exampleRoot : Command Unit (List String) :=
  .mk [pingCmd] (.Literal "") none

/-- The worked example dispatcher: prefix "/", tree
`ping -> argument "number" -> action`. -/
def exampleDispatcher : Dispatcher Unit (List String) :=
  ⟨exampleRoot, "/", fun w => ((), w)⟩

/-- C1: the claim states the terminal check fires only when the cursor has
consumed all positional tokens, children being tried otherwise. The code's
guard (`offset <= tokens.len()`, src/dispatcher/mod.rs line 58) is instead
true at offset 0 with 2 tokens remaining: on the worked example tree the
matcher returns a terminal `UnknownCommand` outcome immediately, without
running any child's action (world log stays empty), even though the child
path `ping -> number` matches the tokens. -/
theorem terminal_check_fires_with_tokens_remaining :
    exampleRoot.execute 0 ["ping", "3"] noNamed (ExecContext.new ()) [] =
      (.Done (.error (.InvalidCommand .UnknownCommand)), ExecContext.new (), [])
    ∧ (0 : Nat) < (["ping", "3"] : List String).length := by
  constructor
  · rfl
  · decide

/-- C2: the claim states that running `prefix literal value` against the
tree `literal -> argument -> action` invokes the action with the binding
recorded and returns its result. On the worked example (`/ping 3`,
straight from `examples/simple.rs`), the code instead returns
`UnknownCommand` and the action never runs (the world log remains empty). -/
theorem run_command_ping_returns_unknown :
    exampleDispatcher.runCommand "/ping 3" [] =
      (.error (.InvalidCommand .UnknownCommand), []) := by
  rfl

/-- A second "ping" child bearing its own action: a later sibling that
would also match the token "ping" (used to witness first-match-wins). -/
def pingCmd2 : Command Unit (List String) :=
  .mk [] (.Literal "ping") (some (logAction "second"))

/-- C3: in the child loop of `Command::execute`, the first child whose
`process` step succeeds and whose recursive `execute` reaches a terminal
(`Done`) outcome determines the result: that outcome is propagated
immediately, and the remaining siblings `rest` are never consulted (the
result does not depend on `rest`), even if a later sibling could also
have matched. -/
theorem first_done_child_wins {C σ : Type} (c : Command C σ)
    (rest : List (Command C σ)) (offset offset' : Nat) (tokens : List String)
    (named : String → Option String) (ctx ctx' ctx₂ : ExecContext C)
    (w w₂ : σ) (r : Except YError Unit)
    (hp : c.process offset tokens named ctx = (true, offset', ctx'))
    (he : c.execute offset' tokens named ctx' w = (.Done r, ctx₂, w₂)) :
    Command.executeChildren (c :: rest) offset tokens named ctx w =
      (.Done r, ctx₂, w₂) := by
  simp only [Command.executeChildren, hp, he, if_true]

/-- Witness for C3 at concrete input: the first "ping" child (whose
subtree reaches the terminal `UnknownCommand` outcome) wins over a later
sibling that also matches "ping" and even carries an action — the
sibling's action never runs (log stays empty). -/
theorem first_done_child_wins_witness :
    Command.executeChildren [pingCmd, pingCmd2] 0 ["ping"] noNamed
        (ExecContext.new ()) [] =
      (.Done (.error (.InvalidCommand .UnknownCommand)), ExecContext.new (), []) :=
  first_done_child_wins pingCmd [pingCmd2] 0 1 ["ping"] noNamed
    (ExecContext.new ()) (ExecContext.new ()) (ExecContext.new ()) [] []
    (.error (.InvalidCommand .UnknownCommand)) rfl rfl

/-- C4: `CommandBuilder::build` stores the declared children as their
stable partition: all literal children first, then all argument children,
each group keeping its original declaration order (filter preserves
relative order). -/
theorem build_children_stable_partition {C σ : Type} (b : CommandBuilder C σ) :
    b.build.children =
      b.children.filter Command.isLiteral ++
        b.children.filter (fun c => !c.isLiteral) := by
  simp [CommandBuilder.build, Command.children, List.partition_eq_filter_filter]
  exact List.filter_congr fun c _ => rfl

/-- C5: when the named-argument overrides contain an entry `v` for an
argument node's name, `Command::process` (a) succeeds exactly when the
validator accepts `v`, irrespective of the positional tokens, (b) never
moves the positional cursor, and (c) on success records `v` into the
bindings (and touches nothing on failure); the positional fallback is
not consulted. -/
theorem argument_named_override {C σ : Type} (cmd : Command C σ)
    (a : Argument) (offset : Nat) (tokens : List String)
    (named : String → Option String) (ctx : ExecContext C) (v : String)
    (hnode : cmd.node = .Argument a) (hn : named a.name = some v) :
    (cmd.process offset tokens named ctx).1 = a.matches v
    ∧ (cmd.process offset tokens named ctx).2.1 = offset
    ∧ (a.matches v = true →
        (cmd.process offset tokens named ctx).2.2 =
          ctx.insertArgument a.name v)
    ∧ (a.matches v = false →
        (cmd.process offset tokens named ctx).2.2 = ctx) := by
  cases hm : a.matches v <;>
    simp [Command.process, hnode, hn, hm]

/-- The named-override map used in witnesses: "number" ↦ "42". -/
def named42 : String → Option String :=
  fun x => if x = "number" then some "42" else none

/-- Witness for C5 at concrete input: the argument leaf "number" resolved
from the override "42", with an unrelated positional token present and
the cursor parked at 5. -/
theorem argument_named_override_witness :
    (pingLeaf.process 5 ["zzz"] named42 (ExecContext.new ())).1 =
        Argument.matches ⟨"number", true, acceptAll⟩ "42"
    ∧ (pingLeaf.process 5 ["zzz"] named42 (ExecContext.new ())).2.1 = 5
    ∧ (Argument.matches ⟨"number", true, acceptAll⟩ "42" = true →
        (pingLeaf.process 5 ["zzz"] named42 (ExecContext.new ())).2.2 =
          (ExecContext.new ()).insertArgument "number" "42")
    ∧ (Argument.matches ⟨"number", true, acceptAll⟩ "42" = false →
        (pingLeaf.process 5 ["zzz"] named42 (ExecContext.new ())).2.2 =
          ExecContext.new ()) :=
  argument_named_override pingLeaf ⟨"number", true, acceptAll⟩ 5 ["zzz"]
    named42 (ExecContext.new ()) "42" rfl rfl

/-- Helper for the invocation loop: with tokens `tsA` (no boundary inside)
still to read before a boundary, and accumulator `acc`, a failing flush of
`acc ++ tsA` short-circuits the loop with that error; the tokens after the
boundary are never consulted. -/
theorem runTokens_acc_error {C σ : Type} (d : Dispatcher C σ)
    (tsA : List Token) (rest acc : List Token) (w w' : σ) (e : YError)
    (hnoEnd : ∀ t ∈ tsA, t ≠ Token.End) (hne : acc ++ tsA ≠ [])
    (ha : d.executeCommand (acc ++ tsA) w = (.error e, w')) :
    d.runTokens (tsA ++ Token.End :: rest) acc w = (.error e, w') := by
  induction tsA generalizing acc with
  | nil =>
    simp only [List.append_nil] at hne ha
    simp [Dispatcher.runTokens, hne, ha]
  | cons t ts ih =>
    have ht : t ≠ Token.End := hnoEnd t (by simp)
    simp only [List.cons_append, Dispatcher.runTokens, if_pos ht]
    exact ih (acc ++ [t]) (fun u hu => hnoEnd u (by simp [hu])) (by simp)
      (by simpa using ha)

/-- C6: in the invocation loop of `Dispatcher::run_command`, if dispatching
the first invocation `tsA` returns an error, that error is surfaced as the
call's result, with the world exactly as the first invocation left it; the
tokens after the boundary (the second invocation) are never consulted —
the result does not depend on `rest`, so no tree walk and no action runs
for it. -/
theorem first_invocation_error_stops_pipeline {C σ : Type}
    (d : Dispatcher C σ) (tsA rest : List Token) (w w' : σ) (e : YError)
    (hne : tsA ≠ []) (hnoEnd : ∀ t ∈ tsA, t ≠ Token.End)
    (ha : d.executeCommand tsA w = (.error e, w')) :
    d.runTokens (tsA ++ Token.End :: rest) [] w = (.error e, w') :=
  runTokens_acc_error d tsA rest [] w w' e hnoEnd (by simpa) (by simpa)

/-- Witness for C6 at concrete input: `bogus ; ping 3` — the first
invocation fails with `UnknownCommand`, the second (which includes the
example's `ping 3`) is never run, no action fires (log stays empty). -/
theorem first_invocation_error_stops_pipeline_witness :
    exampleDispatcher.runTokens
        ([Token.Simple "bogus"] ++ Token.End ::
          [Token.Simple "ping", Token.Simple "3", Token.End]) [] [] =
      (.error (.InvalidCommand .UnknownCommand), []) :=
  first_invocation_error_stops_pipeline exampleDispatcher
    [Token.Simple "bogus"] [Token.Simple "ping", Token.Simple "3", Token.End]
    [] [] (.InvalidCommand .UnknownCommand) (by decide) (by decide) rfl

/-- C7: for a literal node, `Command::process` succeeds exactly when the
token at the cursor exists and equals the literal's text (case-sensitive
string equality); on success the cursor advances by exactly one with the
context untouched, and on failure (mismatch or exhausted tokens) both
cursor and context are left unchanged. -/
theorem literal_process_characterization {C σ : Type} (cmd : Command C σ)
    (name : String) (offset : Nat) (tokens : List String)
    (named : String → Option String) (ctx : ExecContext C)
    (hnode : cmd.node = .Literal name) :
    ((cmd.process offset tokens named ctx).1 = true ↔
      tokens[offset]? = some name)
    ∧ ((cmd.process offset tokens named ctx).1 = true →
        cmd.process offset tokens named ctx = (true, offset + 1, ctx))
    ∧ ((cmd.process offset tokens named ctx).1 = false →
        cmd.process offset tokens named ctx = (false, offset, ctx)) := by
  cases h : tokens[offset]? with
  | none => simp [Command.process, hnode, h]
  | some tok =>
    by_cases hq : name = tok
    · subst hq
      simp [Command.process, hnode, h]
    · simp [Command.process, hnode, h, hq, Ne.symm hq]

/-- Witness for C7 at concrete input: the literal "ping" at cursor 0 over
tokens `["ping"]`. -/
theorem literal_process_characterization_witness :
    ((pingCmd.process 0 ["ping"] noNamed (ExecContext.new ())).1 = true ↔
      (["ping"] : List String)[0]? = some "ping")
    ∧ ((pingCmd.process 0 ["ping"] noNamed (ExecContext.new ())).1 = true →
        pingCmd.process 0 ["ping"] noNamed (ExecContext.new ()) =
          (true, 0 + 1, ExecContext.new ()))
    ∧ ((pingCmd.process 0 ["ping"] noNamed (ExecContext.new ())).1 = false →
        pingCmd.process 0 ["ping"] noNamed (ExecContext.new ()) =
          (false, 0, ExecContext.new ())) :=
  literal_process_characterization pingCmd "ping" 0 ["ping"] noNamed
    (ExecContext.new ()) rfl

/-- Helper: the invocation loop over a token list consisting solely of
boundary markers flushes nothing: it returns `Ok(())` with the world
untouched. -/
theorem runTokens_all_end {C σ : Type} (d : Dispatcher C σ) (ts : List Token)
    (w : σ) (hall : ∀ t ∈ ts, t = Token.End) :
    d.runTokens ts [] w = (.ok (), w) := by
  induction ts with
  | nil => simp [Dispatcher.runTokens]
  | cons t ts ih =>
    have ht := hall t (by simp)
    subst ht
    simp only [Dispatcher.runTokens, ne_eq, not_true_eq_false, if_false,
      if_neg (by simp : ¬(([] : List Token) ≠ []))]
    exact ih fun u hu => hall u (by simp [hu])

/-- C8: when the input passes whitespace and prefix stripping and the
remainder tokenizes to boundary markers only (in particular, to nothing),
`run_command` executes no invocation: it returns `Ok(())` and the world is
untouched (no context is constructed and no action runs). -/
theorem empty_after_stripping_no_invocation {C σ : Type} (d : Dispatcher C σ)
    (input : String) (w : σ)
    (hpfx : d.pfx.data.isPrefixOf (input.data.dropWhile Char.isWhitespace) = true)
    (htok : ∀ t ∈ tokenizeChars
        ((input.data.dropWhile Char.isWhitespace).drop d.pfx.data.length) [],
      t = Token.End) :
    d.runCommand input w = (.ok (), w) := by
  unfold Dispatcher.runCommand
  rw [if_pos hpfx]
  apply runTokens_all_end
  intro t ht
  rcases List.mem_append.mp ht with h | h
  · exact htok t h
  · simpa using h

/-- Witness for C8 at concrete input: prefix `/` followed only by
whitespace and a boundary `;`. -/
theorem empty_after_stripping_no_invocation_witness :
    exampleDispatcher.runCommand "/ ; " [] = (.ok (), []) :=
  empty_after_stripping_no_invocation exampleDispatcher "/ ; " []
    (by decide) (by decide)

/-- C9: a node carrying an action, invoked with cursor 0 over the empty
positional token slice, runs the action exactly once (the world passes
through a single application of it) and reports the action's result as the
`Done` outcome, along with the action's final context and world. -/
theorem root_action_runs_on_empty_tokens {C σ : Type} (cmd : Command C σ)
    (f : Act C σ) (named : String → Option String) (ctx : ExecContext C)
    (w : σ) (hact : cmd.action = some f) (hch : cmd.children = []) :
    cmd.execute 0 [] named ctx w =
      (.Done (f ctx w).1, (f ctx w).2.1, (f ctx w).2.2) := by
  rcases cmd with ⟨cs, n, oa⟩
  simp only [Command.action] at hact
  subst hact
  rcases hf : f ctx w with ⟨r, ctx', w'⟩
  simp [Command.execute, Command.action, hf]

/-- A tree consisting of a root action and no children. -/
def rootOnly : Command Unit (List String) :=
  .mk [] (.Literal "") (some (logAction "root-action"))

/-- Witness for C9 at concrete input: the childless root action runs
exactly once (one log entry) and its `Ok` result is the outcome. -/
theorem root_action_runs_on_empty_tokens_witness :
    rootOnly.execute 0 [] noNamed (ExecContext.new ()) [] =
      (.Done (.ok ()), ExecContext.new (), ["root-action"]) :=
  root_action_runs_on_empty_tokens rootOnly (logAction "root-action") noNamed
    (ExecContext.new ()) [] rfl rfl

/-- C10: cursor advances (and bindings) are never undone between siblings:
when a child's `process` succeeds, moving the shared state to `offset'`
and `ctx'`, and its recursive `execute` comes back `Working` with context
`ctx₂` and world `w₂`, the next sibling is tried at exactly that advanced
cursor, context and world — not at the state from before the failed
child was attempted. -/
theorem sibling_tried_at_advanced_state {C σ : Type} (c : Command C σ)
    (rest : List (Command C σ)) (offset offset' : Nat) (tokens : List String)
    (named : String → Option String) (ctx ctx' ctx₂ : ExecContext C)
    (w w₂ : σ)
    (hp : c.process offset tokens named ctx = (true, offset', ctx'))
    (he : c.execute offset' tokens named ctx' w = (.Working, ctx₂, w₂)) :
    Command.executeChildren (c :: rest) offset tokens named ctx w =
      Command.executeChildren rest offset' tokens named ctx₂ w₂ := by
  simp only [Command.executeChildren, hp, he, if_true]

/-- An argument node "n" with no children (used to witness C10: it
processes via a named override and its subtree then reports `Working`). -/
def argN : Command Unit (List String) :=
  .mk [] (.Argument ⟨"n", true, acceptAll⟩) none

/-- The named-override map "n" ↦ "v" used in the C10 witness. -/
def namedN : String → Option String :=
  fun x => if x = "n" then some "v" else none

/-- Witness for C10 at concrete input: the child resolves "n" from the
named override (cursor parked beyond the empty token slice, so its
subtree reports `Working`); the loop continues with the inserted binding
kept. -/
theorem sibling_tried_at_advanced_state_witness :
    Command.executeChildren [argN] 1 [] namedN (ExecContext.new ()) [] =
      Command.executeChildren ([] : List (Command Unit (List String))) 1 []
        namedN ((ExecContext.new ()).insertArgument "n" "v") [] :=
  sibling_tried_at_advanced_state argN [] 1 1 [] namedN (ExecContext.new ())
    ((ExecContext.new ()).insertArgument "n" "v")
    ((ExecContext.new ()).insertArgument "n" "v") [] [] rfl rfl
